import Mathlib

/-
Verification of the reference-counted close operations of the dangling
pointer program (src/dangling_pointer/secure/src/lib.rs), shallowly
embedded in Lean.

Modelling conventions
 - An account is its key (32 bytes), lamport balance, data bytes and owner
   (the custody tag).  Bytes are Nat values below 256, lamports are a u64
   value represented as Nat with explicit wrap-around `% 2 ^ 64` where the
   code performs u64 arithmetic.
 - The accounts slice handed to an instruction is a store (list of
   distinct runtime accounts) plus positional indices into it.  Two roles
   naming the same on-chain address are the same index: the runtime
   deduplicates account metas, so duplicate AccountInfos are views of one
   underlying account.
 - The raw reinterpretations (`borrow_data_unchecked` casts to
   ParentAccount / ChildAccount) read a fixed number of bytes starting at
   the data pointer with no length check.  In the serialized input the
   data region is followed by zeroed spare bytes, so an out-of-range read
   through such a view yields 0; `byteAt` models this.
 - pinocchio runtime borrows are tracked per account.  In these two
   functions the only possible conflicts are: the mutable parent-data
   guard taken before the count update lives until the end of close_child,
   so `resize` on the child fails when child and parent alias; and the
   lamport transfer statement takes a shared borrow on the source before
   the mutable borrow on the destination, so it fails when the two alias.
   These are inlined as index-equality tests yielding AccountBorrowFailed.
 - `assign` sets the owner, `resize 0` empties the data, and `close`
   zeroes the lamports and the data length and marks the account closed
   (corroborated by the repository test test_child_then_parent_close,
   which needs lamport conservation to hold after close).
 - Execution results carry the memory state at exit and the trace of
   writes performed; on an error the surrounding transaction is rolled
   back by the host, which `observed` models.
-/

namespace DanglingPointer

/-- Byte i of an account data region as seen through an unchecked raw
view: inside the region it is the stored byte, past the end it reads the
zeroed spare bytes of the input serialization. -/
def byteAt (d : List Nat) (i : Nat) : Nat := d.getD i 0

/-- Read n raw bytes starting at offset off through an unchecked view. -/
def readBytes (d : List Nat) (off n : Nat) : List Nat :=
  (List.range n).map (fun i => byteAt d (off + i))

/-- The u64 little-endian value of the first 8 bytes of a data region:
the ParentAccount.child_count field. -/
def readU64LE (d : List Nat) : Nat :=
  (readBytes d 0 8).foldr (fun b acc => b + 256 * acc) 0

/-- Little-endian encoding of a u64 value into 8 bytes, as written back
through the mutable ParentAccount view. -/
def toLE8 (v : Nat) : List Nat := (List.range 8).map (fun i => v / 256 ^ i % 256)

/-- A runtime account: address, lamport balance, data and owner program. -/
structure Account where
  key : List Nat
  lamports : Nat
  data : List Nat
  owner : List Nat
deriving DecidableEq

/-- The id declared by the program (base58
ENrRns55VechXJiq4bMbdx7idzQh7tvaEJoYeWxRNe7Y decoded to bytes): the value
of crate id used by the owner check of close_parent. -/
def programId : List Nat :=
  [198, 193, 3, 202, 27, 79, 171, 11, 215, 177, 137, 186, 113, 225, 94, 47,
   40, 27, 167, 209, 65, 71, 81, 210, 172, 62, 114, 226, 73, 81, 108, 151]

/-- pinocchio_system ID, the system program address (32 zero bytes), the
neutral owner every closed account is assigned to. -/
def systemId : List Nat := List.replicate 32 0

/-- The ProgramError values this program can produce, plus the runtime
borrow failure raised by conflicting account borrows. -/
inductive ProgramError where
  | InvalidInstructionData
  | InvalidAccountData
  | IllegalOwner
  | AccountBorrowFailed
deriving DecidableEq

/-- One write performed by an instruction, recorded in the execution
trace: a child_count store, a whole-data overwrite with a constant byte
(the `data.fill` of the insecure variant), a lamport credit (u64, so
modulo 2 ^ 64), a lamport store, an owner reassignment, a resize to
length zero, and the final close (zero lamports, zero data length). -/
inductive Effect where
  | setCount (i : Nat) (v : Nat)
  | fillPattern (i : Nat) (b : Nat)
  | addValue (i : Nat) (amount : Nat)
  | setValue (i : Nat) (v : Nat)
  | setOwner (i : Nat) (o : List Nat)
  | shrink (i : Nat)
  | markClosed (i : Nat)
deriving DecidableEq

/-- Whether an effect is a whole-data sentinel overwrite. -/
def Effect.isFill : Effect → Bool
  | .fillPattern _ _ => true
  | _ => false

/-- Result of running one instruction: success or a returned ProgramError,
in both cases with the memory state at exit and the trace of writes
performed before exiting; `fault` models the Rust out-of-bounds slice
access reached when the accounts slice is too short. -/
inductive RunOut where
  | ok (s : List Account) (tr : List Effect)
  | err (e : ProgramError) (s : List Account) (tr : List Effect)
  | fault
deriving DecidableEq

/-- Placeholder account used as the (never relevant) default of `peek`. -/
def noAccount : Account := ⟨[], 0, [], []⟩

/-- The account at index i of a store. -/
def peek (s : List Account) (i : Nat) : Account := (s[i]?).getD noAccount

/-- Update the account at index i of a store (no-op past the end). -/
def updA (s : List Account) (i : Nat) (f : Account → Account) : List Account :=
  s.set i (f (peek s i))

/-- The state observable after the call from a later transaction: the new
store on success, the unchanged store otherwise, because the host rolls
the transaction back when the instruction errors. -/
def observed (s : List Account) : RunOut → List Account
  | .ok s1 _ => s1
  | _ => s

/-- The raw memory state at instruction exit, including writes performed
before an error. -/
def stateOf : RunOut → Option (List Account)
  | .ok s _ => some s
  | .err _ s _ => some s
  | .fault => none

/-- The error of a run, if any. -/
def errOf : RunOut → Option ProgramError
  | .err e _ _ => some e
  | _ => none

/-- The write trace of a run. -/
def traceOf : RunOut → List Effect
  | .ok _ tr => tr
  | .err _ _ tr => tr
  | .fault => []

/-- Whether a run succeeded. -/
def isOk : RunOut → Bool
  | .ok _ _ => true
  | _ => false

/-- The kind of outcome (success, a specific error, or a fault),
forgetting the resulting memory. -/
def resKind : RunOut → Option (Option ProgramError)
  | .ok _ _ => some none
  | .err e _ _ => some (some e)
  | .fault => none

/-- close_child of the secure variant, translated line by line.  Roles:
iChild = accounts[0], iParent = accounts[1], iUser = accounts[2].
Validation: nonzero parent lamports, parent owner equal to child owner,
parent data length exactly 8, stored child back-reference equal to the
supplied parent key.  Then the checked decrement of child_count, the
lamport transfer to the user, and the assign / resize / close sequence on
the child.  The two index-equality tests reproduce the pinocchio borrow
conflicts described in the header. -/
def close_child (s : List Account) (iChild iParent iUser : Nat) : RunOut :=
  match s[iChild]?, s[iParent]?, s[iUser]? with
  | some child0, some parent0, some _ =>
    if parent0.lamports = 0 then .err .InvalidAccountData s []
    else if parent0.owner ≠ child0.owner then .err .IllegalOwner s []
    else if parent0.data.length ≠ 8 then .err .InvalidAccountData s []
    else if readBytes child0.data 0 32 ≠ parent0.key then .err .InvalidAccountData s []
    else
      let count := readU64LE parent0.data
      if count = 0 then .err .InvalidAccountData s []
      else
        let s1 := updA s iParent (fun a => { a with data := toLE8 (count - 1) })
        let tr1 : List Effect := [.setCount iParent (count - 1)]
        if iUser = iChild then .err .AccountBorrowFailed s1 tr1
        else
          let amt := (peek s1 iChild).lamports
          let s2 := updA s1 iUser (fun a => { a with lamports := (a.lamports + amt) % 2 ^ 64 })
          let s3 := updA s2 iChild (fun a => { a with owner := systemId })
          let tr3 : List Effect := tr1 ++ [.addValue iUser amt, .setOwner iChild systemId]
          if iChild = iParent then .err .AccountBorrowFailed s3 tr3
          else
            let s4 := updA s3 iChild (fun a => { a with data := [] })
            let s5 := updA s4 iChild (fun a => { a with lamports := 0 })
            .ok s5 (tr3 ++ [.shrink iChild, .markClosed iChild])
  | _, _, _ => .fault

/-- close_parent of the secure variant, translated line by line.  Roles:
iParent = accounts[0], iUser = accounts[1].  Validation: parent owner
equal to the program id, then the core safety check child_count = 0 read
through the unchecked ParentAccount view; then the lamport transfer and
the assign / resize / close sequence on the parent. -/
def close_parent (s : List Account) (iParent iUser : Nat) : RunOut :=
  match s[iParent]?, s[iUser]? with
  | some parent0, some _ =>
    if parent0.owner ≠ programId then .err .IllegalOwner s []
    else if readU64LE parent0.data ≠ 0 then .err .InvalidAccountData s []
    else if iUser = iParent then .err .AccountBorrowFailed s []
    else
      let amt := parent0.lamports
      let s1 := updA s iUser (fun a => { a with lamports := (a.lamports + amt) % 2 ^ 64 })
      let s2 := updA s1 iParent (fun a => { a with owner := systemId })
      let s3 := updA s2 iParent (fun a => { a with data := [] })
      let s4 := updA s3 iParent (fun a => { a with lamports := 0 })
      .ok s4 [.addValue iUser amt, .setOwner iParent systemId,
              .shrink iParent, .markClosed iParent]
  | _, _ => .fault

/-- The instruction entrypoint: empty payload is rejected, the first byte
selects the operation (0 = close_child over accounts[0..2], 1 =
close_parent over accounts[0..1], anything else is rejected), where metas
lists the store index of each positional account of the instruction. -/
def process_instruction (s : List Account) (metas : List Nat)
    (instruction_data : List Nat) : RunOut :=
  match instruction_data with
  | [] => .err .InvalidInstructionData s []
  | b :: _ =>
    if b = 0 then
      match metas[0]?, metas[1]?, metas[2]? with
      | some i, some j, some k => close_child s i j k
      | _, _, _ => .fault
    else if b = 1 then
      match metas[0]?, metas[1]? with
      | some i, some j => close_parent s i j
      | _, _ => .fault
    else .err .InvalidInstructionData s []

/-- close_parent of the insecure variant
(src/dangling_pointer/insecure/src/lib.rs), translated for contrast: no
owner check and no child_count check; it fills the parent data with the
sentinel byte 0xff, transfers and zeroes the lamports, assigns the parent
to the system program and reallocs it to length zero (no close call). -/
def insecure_close_parent (s : List Account) (iParent iUser : Nat) : RunOut :=
  match s[iParent]?, s[iUser]? with
  | some _, some _ =>
    let s1 := updA s iParent (fun a => { a with data := List.replicate a.data.length 255 })
    let tr1 : List Effect := [.fillPattern iParent 255]
    if iUser = iParent then .err .AccountBorrowFailed s1 tr1
    else
      let amt := (peek s1 iParent).lamports
      let s2 := updA s1 iUser (fun a => { a with lamports := (a.lamports + amt) % 2 ^ 64 })
      let s3 := updA s2 iParent (fun a => { a with lamports := 0 })
      let s4 := updA s3 iParent (fun a => { a with owner := systemId })
      let s5 := updA s4 iParent (fun a => { a with data := [] })
      .ok s5 (tr1 ++ [.addValue iUser amt, .setValue iParent 0,
                      .setOwner iParent systemId, .shrink iParent])
  | _, _ => .fault

/-- A record carries the child shape bound to address k when its data is
at least the 32 bytes of a ChildAccount and its stored parent field is k.
A reclaimed child has been shrunk to length zero, so it is never bound. -/
def boundTo (k : List Nat) (c : Account) : Bool :=
  decide (32 ≤ c.data.length) && (readBytes c.data 0 32 == k)

/-- The number of not-yet-reclaimed child records of the store whose
stored parent address is k. -/
def liveChildrenOf (k : List Nat) (s : List Account) : Nat :=
  s.countP (boundTo k)

/-- A record carries the parent shape exactly when its data is the 8
bytes of a ParentAccount. -/
def parentShaped (a : Account) : Bool := a.data.length == 8

/-- The global reference-count invariant: every parent-shaped record
stores as child_count exactly the number of live children bound to its
address. -/
def invHolds (s : List Account) : Bool :=
  (List.range s.length).all fun m =>
    !parentShaped (peek s m) ||
      (readU64LE (peek s m).data == liveChildrenOf (peek s m).key s)
/-- A well-formed scenario: one child bound to one parent with
child_count 1, and a wallet beneficiary. -/
def childAcc : Account := ⟨5 :: List.replicate 31 2, 3, 7 :: List.replicate 31 1, programId⟩

/-- The parent of the scenario: count 1, owned by the program. -/
def parentAcc : Account := ⟨7 :: List.replicate 31 1, 6, [1, 0, 0, 0, 0, 0, 0, 0], programId⟩

/-- The beneficiary wallet of the scenario. -/
def userAcc : Account := ⟨3 :: List.replicate 31 4, 10, [], systemId⟩

/-- Store of the well-formed scenario: accounts[0] = child, [1] = parent,
[2] = user. -/
def goodStore : List Account := [childAcc, parentAcc, userAcc]

/-- A parent whose address is the all-zero key, with child_count 1. -/
def zeroKeyParent : Account :=
  ⟨List.replicate 32 0, 6, [1, 0, 0, 0, 0, 0, 0, 0], programId⟩

/-- A program-owned record with empty data: through the unchecked child
view its parent field reads as 32 zero bytes. -/
def emptyDataChild : Account := ⟨5 :: List.replicate 31 2, 2, [], programId⟩

/-- A genuine live child bound to the all-zero parent address. -/
def boundChild : Account := ⟨8 :: List.replicate 31 8, 3, List.replicate 32 0, programId⟩

/-- Store where close_child is run on the empty-data record against the
zero-key parent while a genuine bound child stays live. -/
def cexStore : List Account := [emptyDataChild, zeroKeyParent, userAcc, boundChild]

/-- Parent record with child_count 0, owned by the program. -/
def restedParent : Account :=
  ⟨7 :: List.replicate 31 1, 6, [0, 0, 0, 0, 0, 0, 0, 0], programId⟩

/-- Store with the count-1 parent first, then the wallet. -/
def busyParentStore : List Account := [parentAcc, userAcc]

/-- Store with the count-0 parent first, then the wallet. -/
def restedParentStore : List Account := [restedParent, userAcc]

/-- An owner tag different from the program id and from the system id. -/
def foreignOwner : List Nat := List.replicate 32 9

/-- The scenario child, custody tag replaced by the foreign owner. -/
def c4Child : Account := ⟨5 :: List.replicate 31 2, 3, 7 :: List.replicate 31 1, foreignOwner⟩

/-- The scenario parent, custody tag replaced by the foreign owner. -/
def c4Parent : Account := ⟨7 :: List.replicate 31 1, 6, [1, 0, 0, 0, 0, 0, 0, 0], foreignOwner⟩

/-- Store whose child and parent are both owned by the foreign owner. -/
def c4Store : List Account := [c4Child, c4Parent, userAcc]

/-- Store whose child is program-owned but whose parent is foreign. -/
def mixedStore : List Account := [childAcc, c4Parent, userAcc]

/-- A record whose first 8 data bytes, zero-padded to 32 through the
unchecked child view, equal its own key: it passes both the parent and
the child validation of close_child when supplied in both roles. -/
def aliasAcc : Account := ⟨1 :: List.replicate 31 0, 5, [1, 0, 0, 0, 0, 0, 0, 0], programId⟩

/-- Store for the aliased call: the self-referential record and a wallet. -/
def aliasStore : List Account := [aliasAcc, userAcc]

/-- A program-owned parent record with 40 data bytes (not the 8 of the
parent shape), count field zero. -/
def longParent : Account := ⟨7 :: List.replicate 31 1, 5, List.replicate 40 0, programId⟩

/-- Store with the 40-byte parent and a wallet. -/
def longParentStore : List Account := [longParent, userAcc]

/-- Store supplying the scenario child against the 40-byte parent. -/
def childLongStore : List Account := [childAcc, longParent, userAcc]

/-- Store for the aliased-user failure: scenario child and parent only. -/
def c8Store : List Account := [childAcc, parentAcc]

/-- Beneficiary wallet holding the u64 maximum. -/
def hugeUser : Account := ⟨3 :: List.replicate 31 4, 2 ^ 64 - 1, [], systemId⟩

/-- The scenario store with the saturated beneficiary. -/
def overflowStore : List Account := [childAcc, parentAcc, hugeUser]

theorem toLE8_length (v : Nat) : (toLE8 v).length = 8 := by
  simp [toLE8]

theorem boundTo_of_data_eq (k : List Nat) {a b : Account} (h : a.data = b.data) :
    boundTo k a = boundTo k b := by
  simp [boundTo, readBytes, byteAt, h]

theorem boundTo_short (k : List Nat) {a : Account} (h : a.data.length < 32) :
    boundTo k a = false := by
  simp [boundTo]
  omega

theorem byteAt_lt {d : List Nat} (h : ∀ b ∈ d, b < 256) (i : Nat) :
    byteAt d i < 256 := by
  unfold byteAt List.getD
  cases hd : d[i]? with
  | none => simp [hd]
  | some b =>
    have hb : b ∈ d := List.getElem?_mem hd
    simpa [hd] using h b hb

theorem readU64LE_lt {d : List Nat} (h : ∀ b ∈ d, b < 256) :
    readU64LE d < 2 ^ 64 := by
  have h0 := byteAt_lt h 0
  have h1 := byteAt_lt h 1
  have h2 := byteAt_lt h 2
  have h3 := byteAt_lt h 3
  have h4 := byteAt_lt h 4
  have h5 := byteAt_lt h 5
  have h6 := byteAt_lt h 6
  have h7 := byteAt_lt h 7
  have hr : List.range 8 = [0, 1, 2, 3, 4, 5, 6, 7] := rfl
  simp only [readU64LE, readBytes, hr, List.map_cons, List.map_nil, Nat.zero_add,
    List.foldr_cons, List.foldr_nil]
  omega

theorem readU64LE_toLE8 {v : Nat} (h : v < 2 ^ 64) : readU64LE (toLE8 v) = v := by
  have hr : List.range 8 = [0, 1, 2, 3, 4, 5, 6, 7] := rfl
  simp only [readU64LE, readBytes, toLE8, hr, List.map_cons, List.map_nil,
    Nat.zero_add, List.foldr_cons, List.foldr_nil, byteAt, List.getD]
  norm_num
  omega

theorem length_updA (s : List Account) (i : Nat) (f : Account → Account) :
    (updA s i f).length = s.length := by
  simp [updA]

theorem peek_updA_self {s : List Account} {i : Nat} (f : Account → Account)
    (h : i < s.length) : peek (updA s i f) i = f (peek s i) := by
  simp [updA, peek, List.getElem?_set, h]

theorem peek_updA_ne {s : List Account} {i m : Nat} (f : Account → Account)
    (h : i ≠ m) : peek (updA s i f) m = peek s m := by
  simp [updA, peek, List.getElem?_set, h]

theorem peek_eq_getElem {s : List Account} {i : Nat} (h : i < s.length) :
    peek s i = s[i] := by
  simp [peek, List.getElem?_eq_getElem h]

theorem liveChildrenOf_updA_same {s : List Account} {i : Nat} {k : List Nat}
    (f : Account → Account) (h : i < s.length)
    (hsame : boundTo k (f (peek s i)) = boundTo k (peek s i)) :
    liveChildrenOf k (updA s i f) = liveChildrenOf k s := by
  have hgi : peek s i = s[i] := peek_eq_getElem h
  rw [hgi] at hsame
  have hset := List.countP_set (boundTo k) s i (f s[i]) h
  simp only [liveChildrenOf, updA, hgi]
  rw [hset, hsame]
  cases hb : boundTo k s[i] with
  | false => simp [hb]
  | true =>
    have hone : 0 < s.countP (boundTo k) :=
      List.countP_pos_iff.mpr ⟨s[i], List.getElem_mem h, hb⟩
    simp only [hb, if_true]
    omega

theorem liveChildrenOf_updA_flip {s : List Account} {i : Nat} {k : List Nat}
    (f : Account → Account) (h : i < s.length)
    (hold : boundTo k (peek s i) = true)
    (hnew : boundTo k (f (peek s i)) = false) :
    liveChildrenOf k (updA s i f) + 1 = liveChildrenOf k s := by
  have hgi : peek s i = s[i] := peek_eq_getElem h
  rw [hgi] at hold hnew
  have hset := List.countP_set (boundTo k) s i (f s[i]) h
  have hone : 0 < s.countP (boundTo k) :=
    List.countP_pos_iff.mpr ⟨s[i], List.getElem_mem h, hold⟩
  simp only [liveChildrenOf, updA, hgi]
  rw [hset]
  simp only [hold, hnew]
  simp
  omega

theorem key_inj {s : List Account} (hkeys : (s.map Account.key).Nodup)
    {m m' : Nat} (hm : m < s.length) (hm' : m' < s.length)
    (hk : (peek s m).key = (peek s m').key) : m = m' := by
  rw [peek_eq_getElem hm, peek_eq_getElem hm'] at hk
  have hmm : m < (s.map Account.key).length := by simpa using hm
  have hmm' : m' < (s.map Account.key).length := by simpa using hm'
  have hget : (s.map Account.key).get ⟨m, hmm⟩ = (s.map Account.key).get ⟨m', hmm'⟩ := by
    simp only [List.get_eq_getElem, List.getElem_map]
    exact hk
  exact congrArg Fin.val ((List.Nodup.get_inj_iff hkeys).mp hget)

theorem invHolds_iff {s : List Account} :
    invHolds s = true ↔
      ∀ m, m < s.length → parentShaped (peek s m) = true →
        readU64LE (peek s m).data = liveChildrenOf (peek s m).key s := by
  simp only [invHolds, List.all_eq_true, List.mem_range, Bool.or_eq_true,
    Bool.not_eq_eq_eq_not, Bool.not_true, beq_iff_eq]
  constructor
  · intro h m hm hshape
    rcases h m hm with h1 | h1
    · rw [hshape] at h1; cases h1
    · exact h1
  · intro h m hm
    by_cases hshape : parentShaped (peek s m) = true
    · exact Or.inr (h m hm hshape)
    · exact Or.inl (by simpa using hshape)

theorem close_child_ok_elim {s : List Account} {i j k : Nat} {s1 : List Account}
    {tr : List Effect} (hok : close_child s i j k = .ok s1 tr) :
    ∃ c0 p0 u0, s[i]? = some c0 ∧ s[j]? = some p0 ∧ s[k]? = some u0 ∧
      p0.lamports ≠ 0 ∧ p0.owner = c0.owner ∧ p0.data.length = 8 ∧
      readBytes c0.data 0 32 = p0.key ∧ readU64LE p0.data ≠ 0 ∧
      k ≠ i ∧ i ≠ j ∧
      s1 = updA (updA (updA (updA (updA s j
              (fun a => { a with data := toLE8 (readU64LE p0.data - 1) })) k
              (fun a => { a with lamports := (a.lamports + c0.lamports) % 2 ^ 64 })) i
              (fun a => { a with owner := systemId })) i
              (fun a => { a with data := [] })) i
              (fun a => { a with lamports := 0 }) ∧
      tr = [.setCount j (readU64LE p0.data - 1), .addValue k c0.lamports,
            .setOwner i systemId, .shrink i, .markClosed i] := by
  rcases hc : s[i]? with _ | c0 <;> rcases hp : s[j]? with _ | p0 <;>
    rcases hu : s[k]? with _ | u0 <;>
    simp only [close_child, hc, hp, hu] at hok <;>
    try exact RunOut.noConfusion hok
  split_ifs at hok with h1 h2 h3 h4 h5 h6 h7
  have hji : j ≠ i := fun hh => h7 hh.symm
  have hpeek : peek s i = c0 := by simp [peek, hc]
  have hamt :
      (peek (updA s j (fun a => { a with data := toLE8 (readU64LE p0.data - 1) })) i).lamports
        = c0.lamports := by
    rw [peek_updA_ne _ hji, hpeek]
  rw [hamt] at hok
  injection hok with hs ht
  exact ⟨c0, p0, u0, rfl, rfl, rfl, h1, not_not.mp h2, not_not.mp h3, not_not.mp h4,
    h5, h6, h7, hs.symm, ht.symm⟩

theorem close_child_err_state {s : List Account} {i j k : Nat} {e : ProgramError}
    {s1 : List Account} {tr : List Effect} (hki : k ≠ i) (hij : i ≠ j)
    (h : close_child s i j k = .err e s1 tr) : s1 = s := by
  rcases hc : s[i]? with _ | c0 <;> rcases hp : s[j]? with _ | p0 <;>
    rcases hu : s[k]? with _ | u0 <;>
    simp only [close_child, hc, hp, hu] at h <;>
    try exact RunOut.noConfusion h
  split_ifs at h with h1 h2 h3 h4 h5 h6 h7 <;>
    first
    | (injection h with he hs ht; exact hs.symm)
    | exact absurd h6 hki
    | exact absurd h7 hij
    | cases h

theorem close_parent_ok_elim {s : List Account} {i j : Nat} {s1 : List Account}
    {tr : List Effect} (hok : close_parent s i j = .ok s1 tr) :
    ∃ p0 u0, s[i]? = some p0 ∧ s[j]? = some u0 ∧ p0.owner = programId ∧
      readU64LE p0.data = 0 ∧ j ≠ i ∧
      s1 = updA (updA (updA (updA s j
            (fun a => { a with lamports := (a.lamports + p0.lamports) % 2 ^ 64 })) i
            (fun a => { a with owner := systemId })) i
            (fun a => { a with data := [] })) i
            (fun a => { a with lamports := 0 }) ∧
      tr = [.addValue j p0.lamports, .setOwner i systemId,
            .shrink i, .markClosed i] := by
  rcases hp : s[i]? with _ | p0 <;> rcases hu : s[j]? with _ | u0 <;>
    simp only [close_parent, hp, hu] at hok <;>
    try exact RunOut.noConfusion hok
  split_ifs at hok with h1 h2 h3
  injection hok with hs ht
  exact ⟨p0, u0, rfl, rfl, not_not.mp h1, not_not.mp h2, h3, hs.symm, ht.symm⟩

theorem close_parent_err_state {s : List Account} {i j : Nat} {e : ProgramError}
    {s1 : List Account} {tr : List Effect}
    (h : close_parent s i j = .err e s1 tr) : s1 = s ∧ tr = [] := by
  rcases hp : s[i]? with _ | p0 <;> rcases hu : s[j]? with _ | u0 <;>
    simp only [close_parent, hp, hu] at h <;>
    try exact RunOut.noConfusion h
  split_ifs at h with h1 h2 h3 <;>
    first
    | (injection h with he hs ht; exact ⟨hs.symm, ht.symm⟩)
    | cases h

theorem some_peek_lt {s : List Account} {i : Nat} {a : Account}
    (h : s[i]? = some a) : i < s.length := by
  by_contra hh
  push_neg at hh
  rw [List.getElem?_eq_none hh] at h
  cases h

theorem peek_of_some {s : List Account} {i : Nat} {a : Account}
    (h : s[i]? = some a) : peek s i = a := by
  simp [peek, h]

theorem close_child_preserves_inv {s : List Account} {i j k : Nat}
    {s1 : List Account} {tr : List Effect}
    (hkeys : (s.map Account.key).Nodup)
    (hinv : invHolds s = true)
    (hbyte : ∀ b ∈ (peek s j).data, b < 256)
    (hclen : 32 ≤ (peek s i).data.length)
    (hok : close_child s i j k = .ok s1 tr) :
    invHolds s1 = true ∧
    readU64LE (peek s1 j).data + 1 = readU64LE (peek s j).data ∧
    boundTo (peek s j).key (peek s i) = true ∧
    (peek s1 i).data = [] ∧ (peek s1 i).lamports = 0 ∧
    (peek s1 i).owner = systemId ∧
    liveChildrenOf (peek s j).key s1 + 1 = liveChildrenOf (peek s j).key s := by
  obtain ⟨c0, p0, u0, hc, hp, hu, hlam, hown, hplen, hcp, hcnt, hki, hij, hs1, htr⟩ :=
    close_child_ok_elim hok
  have hi : i < s.length := some_peek_lt hc
  have hj : j < s.length := some_peek_lt hp
  have hk : k < s.length := some_peek_lt hu
  have hpi : peek s i = c0 := peek_of_some hc
  have hpj : peek s j = p0 := peek_of_some hp
  have hji : j ≠ i := fun hh => hij hh.symm
  have hik : i ≠ k := fun hh => hki hh.symm
  rw [hpi] at hclen
  rw [hpj] at hbyte
  have hcountlt : readU64LE p0.data < 2 ^ 64 := readU64LE_lt hbyte
  have hround : readU64LE (toLE8 (readU64LE p0.data - 1)) = readU64LE p0.data - 1 :=
    readU64LE_toLE8 (lt_of_le_of_lt (Nat.sub_le _ _) hcountlt)
  subst hs1
  set c := readU64LE p0.data with hcdef
  set t1 := updA s j (fun a => { a with data := toLE8 (c - 1) }) with ht1
  set t2 := updA t1 k
      (fun a => { a with lamports := (a.lamports + c0.lamports) % 2 ^ 64 }) with ht2
  set t3 := updA t2 i (fun a => { a with owner := systemId }) with ht3
  set t4 := updA t3 i (fun a => { a with data := [] }) with ht4
  set t5 := updA t4 i (fun a => { a with lamports := 0 }) with ht5
  have hl1 : t1.length = s.length := by rw [ht1, length_updA]
  have hl2 : t2.length = s.length := by rw [ht2, length_updA, hl1]
  have hl3 : t3.length = s.length := by rw [ht3, length_updA, hl2]
  have hl4 : t4.length = s.length := by rw [ht4, length_updA, hl3]
  have hl5 : t5.length = s.length := by rw [ht5, length_updA, hl4]
  have hp1i : peek t1 i = c0 := by rw [ht1, peek_updA_ne _ hji, hpi]
  have hp2i : peek t2 i = c0 := by rw [ht2, peek_updA_ne _ hki, hp1i]
  have hp5i : peek t5 i = { c0 with owner := systemId, data := [], lamports := 0 } := by
    rw [ht5, peek_updA_self _ (by omega : i < t4.length),
      ht4, peek_updA_self _ (by omega : i < t3.length),
      ht3, peek_updA_self _ (by omega : i < t2.length), hp2i]
  have hp1j : peek t1 j = { p0 with data := toLE8 (c - 1) } := by
    rw [ht1, peek_updA_self _ hj, hpj]
  have hp5j : (peek t5 j).data = toLE8 (c - 1) ∧ (peek t5 j).key = p0.key := by
    rw [ht5, peek_updA_ne _ hij, ht4, peek_updA_ne _ hij, ht3, peek_updA_ne _ hij]
    by_cases hkj : k = j
    · rw [ht2, hkj, peek_updA_self _ (by omega : j < t1.length), hp1j]
      exact ⟨rfl, rfl⟩
    · rw [ht2, peek_updA_ne _ hkj, hp1j]
      exact ⟨rfl, rfl⟩
  have hpeekrest : ∀ m, m ≠ i → m ≠ j →
      (peek t5 m).data = (peek s m).data ∧ (peek t5 m).key = (peek s m).key := by
    intro m hmi hmj
    have hmi2 : i ≠ m := fun hh => hmi hh.symm
    have hmj2 : j ≠ m := fun hh => hmj hh.symm
    rw [ht5, peek_updA_ne _ hmi2, ht4, peek_updA_ne _ hmi2, ht3, peek_updA_ne _ hmi2]
    by_cases hkm : k = m
    · subst hkm
      rw [ht2, peek_updA_self _ (by omega : k < t1.length), ht1, peek_updA_ne _ hmj2]
      exact ⟨rfl, rfl⟩
    · rw [ht2, peek_updA_ne _ hkm, ht1, peek_updA_ne _ hmj2]
      exact ⟨rfl, rfl⟩
  have hboundc0 : boundTo p0.key c0 = true := by
    simp [boundTo, hcp, hclen]
  have hlive : ∀ κ : List Nat,
      (κ = p0.key → liveChildrenOf κ t5 + 1 = liveChildrenOf κ s) ∧
      (κ ≠ p0.key → liveChildrenOf κ t5 = liveChildrenOf κ s) := by
    intro κ
    have hshort1 : ({ p0 with data := toLE8 (c - 1) } : Account).data.length < 32 := by
      simp [toLE8_length]
    have hshort0 : (p0 : Account).data.length < 32 := by omega
    have e1 : liveChildrenOf κ t1 = liveChildrenOf κ s := by
      rw [ht1]
      refine liveChildrenOf_updA_same _ hj ?_
      rw [hpj, boundTo_short κ hshort1, boundTo_short κ hshort0]
    have e2 : liveChildrenOf κ t2 = liveChildrenOf κ t1 := by
      rw [ht2]
      exact liveChildrenOf_updA_same _ (by omega : k < t1.length)
        (boundTo_of_data_eq κ rfl)
    have e3 : liveChildrenOf κ t3 = liveChildrenOf κ t2 := by
      rw [ht3]
      exact liveChildrenOf_updA_same _ (by omega : i < t2.length)
        (boundTo_of_data_eq κ rfl)
    have e5base : ∀ u : List Account, liveChildrenOf κ (updA u i
        (fun a => { a with lamports := 0 })) = liveChildrenOf κ u ∨ True := fun u => Or.inr trivial
    have hb3i : boundTo κ (peek t3 i) = boundTo κ c0 := by
      rw [ht3, peek_updA_self _ (by omega : i < t2.length), hp2i]
      exact boundTo_of_data_eq κ rfl
    have hshortnil : ∀ a : Account, (({ a with data := ([] : List Nat) } : Account)).data.length < 32 := by
      intro a; simp
    constructor
    · intro hκ
      subst hκ
      have hold : boundTo p0.key (peek t3 i) = true := by rw [hb3i, hboundc0]
      have hnew : boundTo p0.key
          ((fun a => { a with data := ([] : List Nat) }) (peek t3 i)) = false :=
        boundTo_short _ (hshortnil _)
      have e4 : liveChildrenOf p0.key t4 + 1 = liveChildrenOf p0.key t3 := by
        rw [ht4]
        exact liveChildrenOf_updA_flip _ (by omega : i < t3.length) hold hnew
      have e5 : liveChildrenOf p0.key t5 = liveChildrenOf p0.key t4 := by
        rw [ht5]
        exact liveChildrenOf_updA_same _ (by omega : i < t4.length)
          (boundTo_of_data_eq _ rfl)
      omega
    · intro hκ
      have hbfalse : (readBytes c0.data 0 32 == κ) = false := by
        rw [hcp]
        exact beq_eq_false_iff_ne.mpr (fun hh => hκ hh.symm)
      have hold : boundTo κ (peek t3 i) = false := by
        rw [hb3i]
        simp [boundTo, hbfalse]
      have hnew : boundTo κ
          ((fun a => { a with data := ([] : List Nat) }) (peek t3 i)) = false :=
        boundTo_short _ (hshortnil _)
      have e4 : liveChildrenOf κ t4 = liveChildrenOf κ t3 := by
        rw [ht4]
        refine liveChildrenOf_updA_same _ (by omega : i < t3.length) ?_
        rw [hold, hnew]
      have e5 : liveChildrenOf κ t5 = liveChildrenOf κ t4 := by
        rw [ht5]
        exact liveChildrenOf_updA_same _ (by omega : i < t4.length)
          (boundTo_of_data_eq _ rfl)
      omega
  have hshapedj : parentShaped (peek s j) = true := by
    rw [hpj]
    simp [parentShaped, hplen]
  have hinvj : c = liveChildrenOf p0.key s := by
    have := (invHolds_iff.mp hinv) j hj hshapedj
    rw [hpj] at this
    exact this
  refine ⟨?_, ?_, ?_, ?_, ?_, ?_, ?_⟩
  · rw [invHolds_iff]
    intro m hm hshape
    rw [hl5] at hm
    by_cases hmi : m = i
    · subst hmi
      rw [hp5i] at hshape
      simp [parentShaped] at hshape
    · by_cases hmj : m = j
      · subst hmj
        obtain ⟨hd5, hk5⟩ := hp5j
        rw [hd5, hk5, hround]
        have hcc := (hlive p0.key).1 rfl
        omega
      · obtain ⟨hd, hkk⟩ := hpeekrest m hmi hmj
        rw [hd, hkk]
        have hκ : (peek s m).key ≠ p0.key := by
          intro hh
          apply hmj
          refine key_inj hkeys hm hj ?_
          rw [hh, hpj]
        have hsame := (hlive (peek s m).key).2 hκ
        have hmshaped : parentShaped (peek s m) = true := by
          have : parentShaped (peek t5 m) = parentShaped (peek s m) := by
            simp [parentShaped, hd]
          rw [← this]
          exact hshape
        have hminv := (invHolds_iff.mp hinv) m hm hmshaped
        rw [hsame]
        exact hminv
  · rw [hp5j.1, hround, hpj]
    omega
  · rw [hpj, hpi]
    exact hboundc0
  · rw [hp5i]
  · rw [hp5i]
  · rw [hp5i]
  · rw [hpj]
    exact (hlive p0.key).1 rfl

theorem close_parent_preserves_inv {s : List Account} {i j : Nat}
    {s1 : List Account} {tr : List Effect}
    (hinv : invHolds s = true)
    (hplen : (peek s i).data.length < 32)
    (hok : close_parent s i j = .ok s1 tr) :
    invHolds s1 = true ∧
    (parentShaped (peek s i) = true → liveChildrenOf (peek s i).key s = 0) := by
  obtain ⟨p0, u0, hp, hu, hown, hcnt0, hji, hs1, htr⟩ := close_parent_ok_elim hok
  have hi : i < s.length := some_peek_lt hp
  have hj : j < s.length := some_peek_lt hu
  have hpi : peek s i = p0 := peek_of_some hp
  have hij : i ≠ j := fun hh => hji hh.symm
  rw [hpi] at hplen
  subst hs1
  set t1 := updA s j
      (fun a => { a with lamports := (a.lamports + p0.lamports) % 2 ^ 64 }) with ht1
  set t2 := updA t1 i (fun a => { a with owner := systemId }) with ht2
  set t3 := updA t2 i (fun a => { a with data := [] }) with ht3
  set t4 := updA t3 i (fun a => { a with lamports := 0 }) with ht4
  have hl1 : t1.length = s.length := by rw [ht1, length_updA]
  have hl2 : t2.length = s.length := by rw [ht2, length_updA, hl1]
  have hl3 : t3.length = s.length := by rw [ht3, length_updA, hl2]
  have hl4 : t4.length = s.length := by rw [ht4, length_updA, hl3]
  have hp1i : peek t1 i = p0 := by rw [ht1, peek_updA_ne _ hji, hpi]
  have hp4i : peek t4 i = { p0 with owner := systemId, data := [], lamports := 0 } := by
    rw [ht4, peek_updA_self _ (by omega : i < t3.length),
      ht3, peek_updA_self _ (by omega : i < t2.length),
      ht2, peek_updA_self _ (by omega : i < t1.length), hp1i]
  have hpeekrest : ∀ m, m ≠ i →
      (peek t4 m).data = (peek s m).data ∧ (peek t4 m).key = (peek s m).key := by
    intro m hmi
    have hmi2 : i ≠ m := fun hh => hmi hh.symm
    rw [ht4, peek_updA_ne _ hmi2, ht3, peek_updA_ne _ hmi2, ht2, peek_updA_ne _ hmi2]
    by_cases hjm : j = m
    · subst hjm
      rw [ht1, peek_updA_self _ hj]
      exact ⟨rfl, rfl⟩
    · rw [ht1, peek_updA_ne _ hjm]
      exact ⟨rfl, rfl⟩
  have hshortnil : ∀ a : Account,
      (({ a with data := ([] : List Nat) } : Account)).data.length < 32 := by
    intro a; simp
  have hlive : ∀ κ : List Nat, liveChildrenOf κ t4 = liveChildrenOf κ s := by
    intro κ
    have e1 : liveChildrenOf κ t1 = liveChildrenOf κ s := by
      rw [ht1]
      exact liveChildrenOf_updA_same _ hj (boundTo_of_data_eq κ rfl)
    have e2 : liveChildrenOf κ t2 = liveChildrenOf κ t1 := by
      rw [ht2]
      exact liveChildrenOf_updA_same _ (by omega : i < t1.length)
        (boundTo_of_data_eq κ rfl)
    have hb2i : boundTo κ (peek t2 i) = false := by
      rw [ht2, peek_updA_self _ (by omega : i < t1.length), hp1i]
      have : boundTo κ ({ p0 with owner := systemId } : Account) = boundTo κ p0 :=
        boundTo_of_data_eq κ rfl
      rw [this, boundTo_short κ hplen]
    have e3 : liveChildrenOf κ t3 = liveChildrenOf κ t2 := by
      rw [ht3]
      refine liveChildrenOf_updA_same _ (by omega : i < t2.length) ?_
      rw [hb2i, boundTo_short _ (hshortnil _)]
    have e4 : liveChildrenOf κ t4 = liveChildrenOf κ t3 := by
      rw [ht4]
      exact liveChildrenOf_updA_same _ (by omega : i < t3.length)
        (boundTo_of_data_eq κ rfl)
    omega
  constructor
  · rw [invHolds_iff]
    intro m hm hshape
    rw [hl4] at hm
    by_cases hmi : m = i
    · subst hmi
      rw [hp4i] at hshape
      simp [parentShaped] at hshape
    · obtain ⟨hd, hkk⟩ := hpeekrest m hmi
      rw [hd, hkk, hlive]
      have hmshaped : parentShaped (peek s m) = true := by
        have : parentShaped (peek t4 m) = parentShaped (peek s m) := by
          simp [parentShaped, hd]
        rw [← this]
        exact hshape
      exact (invHolds_iff.mp hinv) m hm hmshaped
  · intro hshaped
    have := (invHolds_iff.mp hinv) i hi hshaped
    rw [hpi] at this
    rw [hpi, ← this, hcnt0]

theorem close_child_err_cases {s : List Account} {i j k : Nat} {e : ProgramError}
    {s1 : List Account} {tr : List Effect}
    (h : close_child s i j k = .err e s1 tr) :
    s1 = s ∨
    ∃ c0 p0, s[i]? = some c0 ∧ s[j]? = some p0 ∧ p0.data.length = 8 ∧
      readU64LE p0.data ≠ 0 ∧
      (s1 = updA s j (fun a => { a with data := toLE8 (readU64LE p0.data - 1) }) ∨
       (k ≠ i ∧ i = j ∧
        s1 = updA (updA (updA s j
          (fun a => { a with data := toLE8 (readU64LE p0.data - 1) })) k
          (fun a => { a with lamports := (a.lamports + c0.lamports) % 2 ^ 64 })) i
          (fun a => { a with owner := systemId }))) := by
  rcases hc : s[i]? with _ | c0 <;> rcases hp : s[j]? with _ | p0 <;>
    rcases hu : s[k]? with _ | u0 <;>
    simp only [close_child, hc, hp, hu] at h <;>
    try exact RunOut.noConfusion h
  split_ifs at h with h1 h2 h3 h4 h5 h6 h7
  · injection h with he hs ht
    exact Or.inl hs.symm
  · injection h with he hs ht
    exact Or.inl hs.symm
  · injection h with he hs ht
    exact Or.inl hs.symm
  · injection h with he hs ht
    exact Or.inl hs.symm
  · injection h with he hs ht
    exact Or.inl hs.symm
  · injection h with he hs ht
    exact Or.inr ⟨c0, p0, rfl, rfl, not_not.mp h3, h5, Or.inl hs.symm⟩
  · injection h with he hs ht
    have hc0p0 : c0 = p0 := by
      rw [h7] at hc
      rw [hc] at hp
      injection hp
    have hamt :
        (peek (updA s j (fun a => { a with data := toLE8 (readU64LE p0.data - 1) })) i).lamports
          = c0.lamports := by
      rw [h7, peek_updA_self _ (some_peek_lt hp), peek_of_some hp, hc0p0]
    rw [hamt] at hs
    exact Or.inr ⟨c0, p0, rfl, rfl, not_not.mp h3, h5, Or.inr ⟨h6, h7, hs.symm⟩⟩

theorem close_child_ok_parent_data {s : List Account} {i j k : Nat}
    {s1 : List Account} {tr : List Effect}
    (hok : close_child s i j k = .ok s1 tr) :
    ∃ p0, s[j]? = some p0 ∧ (peek s1 j).data = toLE8 (readU64LE p0.data - 1) := by
  obtain ⟨c0, p0, u0, hc, hp, hu, hlam, hown, hplen, hcp, hcnt, hki, hij, hs1, htr⟩ :=
    close_child_ok_elim hok
  have hj : j < s.length := some_peek_lt hp
  have hk : k < s.length := some_peek_lt hu
  refine ⟨p0, hp, ?_⟩
  subst hs1
  rw [peek_updA_ne _ hij, peek_updA_ne _ hij, peek_updA_ne _ hij]
  by_cases hkj : k = j
  · rw [hkj, peek_updA_self _ (by rw [length_updA]; omega),
      peek_updA_self _ hj, peek_of_some hp]
  · rw [peek_updA_ne _ hkj, peek_updA_self _ hj, peek_of_some hp]

/-- C1: for every parent record P whose stored child_count equals the
number of live children bound to its address, the equality is claimed to
still hold after any close_child or close_parent call.  Amended: this
holds provided the record supplied in the child role carries a full
32-byte child layout and the record supplied to close_parent carries the
8-byte parent layout; a successful close_child then decrements the parent
count by exactly one and reclaims exactly the one supplied child, which
was bound to the parent, and a successful close_parent implies the parent
had no live children.  Failed calls leave the observable state unchanged
(host rollback). -/
theorem C1_refcount_invariant (s : List Account)
    (hkeys : (s.map Account.key).Nodup) (hinv : invHolds s = true) :
    (∀ i j k, (∀ b ∈ (peek s j).data, b < 256) → 32 ≤ (peek s i).data.length →
      invHolds (observed s (close_child s i j k)) = true) ∧
    (∀ i j, (peek s i).data.length = 8 →
      invHolds (observed s (close_parent s i j)) = true) ∧
    (∀ i j k s1 tr, (∀ b ∈ (peek s j).data, b < 256) → 32 ≤ (peek s i).data.length →
      close_child s i j k = .ok s1 tr →
      readU64LE (peek s1 j).data + 1 = readU64LE (peek s j).data ∧
      boundTo (peek s j).key (peek s i) = true ∧
      (peek s1 i).data = [] ∧ (peek s1 i).lamports = 0 ∧
      liveChildrenOf (peek s j).key s1 + 1 = liveChildrenOf (peek s j).key s) ∧
    (∀ i j s1 tr, (peek s i).data.length = 8 →
      close_parent s i j = .ok s1 tr → liveChildrenOf (peek s i).key s = 0) := by
  refine ⟨?_, ?_, ?_, ?_⟩
  · intro i j k hb hl
    cases hres : close_child s i j k with
    | ok s1 tr =>
      simp only [observed]
      exact (close_child_preserves_inv hkeys hinv hb hl hres).1
    | err e s1 tr => simpa [observed] using hinv
    | fault => simpa [observed] using hinv
  · intro i j hl
    cases hres : close_parent s i j with
    | ok s1 tr =>
      simp only [observed]
      exact (close_parent_preserves_inv hinv (by omega) hres).1
    | err e s1 tr => simpa [observed] using hinv
    | fault => simpa [observed] using hinv
  · intro i j k s1 tr hb hl hres
    obtain ⟨_, h2, h3, h4, h5, _, h7⟩ := close_child_preserves_inv hkeys hinv hb hl hres
    exact ⟨h2, h3, h4, h5, h7⟩
  · intro i j s1 tr hl hres
    refine (close_parent_preserves_inv hinv (by omega) hres).2 ?_
    simp [parentShaped, hl]

/-- C1 counterexample: in cexStore the invariant holds (the zero-key
parent counts exactly one live bound child), yet close_child succeeds on
the empty-data record — whose padded unchecked view matches the parent
key — decrementing child_count to 0 while the genuine child stays live,
so the invariant is false after the successful call. -/
theorem C1_counterexample :
    invHolds cexStore = true ∧
    isOk (close_child cexStore 0 1 2) = true ∧
    invHolds (observed cexStore (close_child cexStore 0 1 2)) = false :=
  ⟨by decide, by decide, by decide⟩

/-- C1 witness: the amended theorem applied to the well-formed scenario. -/
theorem C1_witness :
    invHolds (observed goodStore (close_child goodStore 0 1 2)) = true :=
  (C1_refcount_invariant goodStore (by decide) (by decide)).1 0 1 2
    (by decide) (by decide)

/-- C2: when the supplied parent is owned by the program, close_parent
fails with the ChildrenStillReferencing error (ProgramError
InvalidAccountData in the code) whenever the stored child_count is
nonzero, and reaches reclamation successfully when the count is zero and
the beneficiary is a distinct account. -/
theorem C2_no_premature_parent_close (s : List Account) (i j : Nat) (p0 : Account)
    (hp : s[i]? = some p0) (hj : j < s.length) (hown : p0.owner = programId) :
    (readU64LE p0.data ≠ 0 → close_parent s i j = .err .InvalidAccountData s []) ∧
    (readU64LE p0.data = 0 → i ≠ j → isOk (close_parent s i j) = true) := by
  have hju : s[j]? = some s[j] := List.getElem?_eq_getElem hj
  constructor
  · intro hcnt
    simp only [close_parent, hp, hju]
    rw [if_neg (by simp [hown]), if_pos hcnt]
  · intro h0 hij
    simp only [close_parent, hp, hju]
    rw [if_neg (by simp [hown]), if_neg (by simp [h0]),
      if_neg (fun hh => hij hh.symm)]
    rfl

/-- C2 witness: with count 1 close_parent fails; with count 0 it
succeeds. -/
theorem C2_witness :
    close_parent busyParentStore 0 1 = .err .InvalidAccountData busyParentStore [] ∧
    isOk (close_parent restedParentStore 0 1) = true :=
  ⟨(C2_no_premature_parent_close busyParentStore 0 1 parentAcc (by decide) (by decide)
      (by decide)).1 (by decide),
   (C2_no_premature_parent_close restedParentStore 0 1 restedParent (by decide) (by decide)
      (by decide)).2 (by decide) (by decide)⟩

theorem close_child_count_mono (s : List Account) (i j k : Nat)
    (hbyte : ∀ b ∈ (peek s j).data, b < 256) :
    ∀ s1, stateOf (close_child s i j k) = some s1 →
      readU64LE (peek s1 j).data ≤ readU64LE (peek s j).data := by
  intro s1 hstate
  cases hres : close_child s i j k with
  | fault => rw [hres] at hstate; cases hstate
  | ok s2 tr =>
    rw [hres] at hstate
    simp only [stateOf] at hstate
    obtain rfl : s2 = s1 := Option.some.inj hstate
    obtain ⟨p1, hp1, hdata⟩ := close_child_ok_parent_data hres
    have hpj : peek s j = p1 := peek_of_some hp1
    rw [hpj] at hbyte
    have hround : readU64LE (toLE8 (readU64LE p1.data - 1)) = readU64LE p1.data - 1 :=
      readU64LE_toLE8 (lt_of_le_of_lt (Nat.sub_le _ _) (readU64LE_lt hbyte))
    rw [hdata, hround, hpj]
    omega
  | err e s2 tr =>
    rw [hres] at hstate
    simp only [stateOf] at hstate
    obtain rfl : s2 = s1 := Option.some.inj hstate
    rcases close_child_err_cases hres with hcase | ⟨c1, p1, hc1, hp1, hlen1, hcnt1, hforms⟩
    · subst hcase; exact le_refl _
    · have hpj : peek s j = p1 := peek_of_some hp1
      rw [hpj] at hbyte
      have hround : readU64LE (toLE8 (readU64LE p1.data - 1)) = readU64LE p1.data - 1 :=
        readU64LE_toLE8 (lt_of_le_of_lt (Nat.sub_le _ _) (readU64LE_lt hbyte))
      have hj : j < s.length := some_peek_lt hp1
      rcases hforms with hform | ⟨hki, hij, hform⟩
      · subst hform
        rw [peek_updA_self _ hj, hpj]
        show readU64LE (toLE8 (readU64LE p1.data - 1)) ≤ readU64LE p1.data
        rw [hround]
        omega
      · subst hform
        obtain rfl := hij
        have hl12 : i < (updA (updA s i
            (fun a => { a with data := toLE8 (readU64LE p1.data - 1) })) k
            (fun a => { a with lamports := (a.lamports + c1.lamports) % 2 ^ 64 })).length := by
          rw [length_updA, length_updA]; omega
        rw [peek_updA_self _ hl12, peek_updA_ne _ hki, peek_updA_self _ hj, hpj]
        show readU64LE (toLE8 (readU64LE p1.data - 1)) ≤ readU64LE p1.data
        rw [hround]
        omega

/-- C3: the decrement in close_child is a checked subtraction: when the
supplied records pass validation but the parent child_count is already 0,
the call fails with the InvariantViolation error (ProgramError
InvalidAccountData in the code) with no record changed; and in every
execution, successful or failed, the parent data never wraps: the count
it stores at exit is at most the count stored before the call. -/
theorem C3_checked_decrement (s : List Account) (i j k : Nat) (c0 p0 : Account)
    (hc : s[i]? = some c0) (hp : s[j]? = some p0) (hk : k < s.length)
    (hbyte : ∀ b ∈ p0.data, b < 256) :
    (p0.lamports ≠ 0 → p0.owner = c0.owner → p0.data.length = 8 →
      readBytes c0.data 0 32 = p0.key → readU64LE p0.data = 0 →
      close_child s i j k = .err .InvalidAccountData s []) ∧
    (∀ s1, stateOf (close_child s i j k) = some s1 →
      readU64LE (peek s1 j).data ≤ readU64LE (peek s j).data) := by
  have hku : s[k]? = some s[k] := List.getElem?_eq_getElem hk
  constructor
  · intro hlam hown hlen hcp hcnt
    simp only [close_child, hc, hp, hku]
    rw [if_neg hlam, if_neg (by simp [hown]), if_neg (by simp [hlen]),
      if_neg (by simp [hcp]), if_pos hcnt]
  · refine close_child_count_mono s i j k ?_
    rw [peek_of_some hp]
    exact hbyte

set_option maxHeartbeats 2000000 in
/-- C3 witness: a validated parent already at count 0 makes close_child
fail, and the no-wrap bound holds on the successful scenario run. -/
theorem C3_witness :
    (∃ s1, stateOf (close_child goodStore 0 1 2) = some s1 ∧
      readU64LE (peek s1 1).data ≤ readU64LE (peek goodStore 1).data) ∧
    close_child [childAcc, restedParent, userAcc] 0 1 2
      = .err .InvalidAccountData [childAcc, restedParent, userAcc] [] :=
  ⟨⟨observed goodStore (close_child goodStore 0 1 2), by decide,
    (C3_checked_decrement goodStore 0 1 2 childAcc parentAcc (by decide) (by decide)
      (by decide) (by decide)).2 _ (by decide)⟩,
   (C3_checked_decrement [childAcc, restedParent, userAcc] 0 1 2 childAcc restedParent
      (by decide) (by decide) (by decide) (by decide)).1 (by decide) (by decide)
      (by decide) (by decide) (by decide)⟩

theorem getElem?_updA_ne {s : List Account} {i m : Nat} (f : Account → Account)
    (h : i ≠ m) : (updA s i f)[m]? = s[m]? := by
  simp [updA, List.getElem?_set, h]

/-- C4: close_child establishes liveness and identity jointly.  Amended:
the three conditions it enforces are (a) the parent record's attached
value is nonzero, (b) the parent's custody tag equals the CHILD record's
custody tag — not the executing program's tag, which close_child never
consults — and (c) the child's stored parent address equals the key of
the record actually supplied as parent; a recreated parent whose custody
tag differs from the child's is rejected with IllegalOwner. -/
theorem C4_liveness_identity_triad :
    (∀ s i j k s1 tr, close_child s i j k = .ok s1 tr →
      (peek s j).lamports ≠ 0 ∧ (peek s j).owner = (peek s i).owner ∧
      readBytes (peek s i).data 0 32 = (peek s j).key) ∧
    (∀ s i j k c0 p0 u0, s[i]? = some c0 → s[j]? = some p0 → s[k]? = some u0 →
      p0.lamports ≠ 0 → p0.owner ≠ c0.owner →
      close_child s i j k = .err .IllegalOwner s []) := by
  constructor
  · intro s i j k s1 tr hok
    obtain ⟨c0, p0, u0, hc, hp, hu, hlam, hown, hplen, hcp, hcnt, hki, hij, hs1, htr⟩ :=
      close_child_ok_elim hok
    rw [peek_of_some hc, peek_of_some hp]
    exact ⟨hlam, hown, hcp⟩
  · intro s i j k c0 p0 u0 hc hp hu hlam hown
    simp only [close_child, hc, hp, hu]
    rw [if_neg hlam, if_pos hown]

/-- C4 counterexample: a store whose parent and child both carry the
foreign custody tag: close_child succeeds even though the parent custody
tag is not the executing program's tag, refuting condition (b) of the
claim as stated. -/
theorem C4_counterexample :
    isOk (close_child c4Store 0 1 2) = true ∧
    (peek c4Store 1).owner ≠ programId ∧
    (peek c4Store 0).owner ≠ programId :=
  ⟨by decide, by decide, by decide⟩

set_option maxHeartbeats 2000000 in
/-- C4 witness: the triad necessity on the successful scenario run, and
the rejection of a parent whose custody tag differs from the child. -/
theorem C4_witness :
    ((peek goodStore 1).lamports ≠ 0 ∧
      (peek goodStore 1).owner = (peek goodStore 0).owner ∧
      readBytes (peek goodStore 0).data 0 32 = (peek goodStore 1).key) ∧
    close_child mixedStore 0 1 2 = .err .IllegalOwner mixedStore [] :=
  ⟨C4_liveness_identity_triad.1 goodStore 0 1 2
      (observed goodStore (close_child goodStore 0 1 2))
      (traceOf (close_child goodStore 0 1 2)) (by decide),
   C4_liveness_identity_triad.2 mixedStore 0 1 2 childAcc c4Parent userAcc
      (by decide) (by decide) (by decide) (by decide) (by decide)⟩

/-- C5: a call naming the same record for the child and the parent roles
is claimed to fail with AliasedRecords before any mutation.  Amended: the
code performs no address comparison at all; an aliased call that passes
the ordinary validation first decrements the count, transfers the
attached value and reassigns the custody tag, and only then fails with
AccountBorrowFailed when the resize hits the still-live parent data
borrow; those writes are discarded only by the host rollback. -/
theorem C5_no_aliasing_check (s : List Account) (i k : Nat) (a0 : Account)
    (ha : s[i]? = some a0) (hk : k < s.length) (hki : k ≠ i)
    (hlam : a0.lamports ≠ 0) (hlen : a0.data.length = 8)
    (hkey : readBytes a0.data 0 32 = a0.key) (hcnt : readU64LE a0.data ≠ 0) :
    close_child s i i k = .err .AccountBorrowFailed
      (updA (updA (updA s i
        (fun a => { a with data := toLE8 (readU64LE a0.data - 1) })) k
        (fun a => { a with lamports := (a.lamports + a0.lamports) % 2 ^ 64 })) i
        (fun a => { a with owner := systemId }))
      [.setCount i (readU64LE a0.data - 1), .addValue k a0.lamports,
       .setOwner i systemId] := by
  have hku : s[k]? = some s[k] := List.getElem?_eq_getElem hk
  have hamt : peek (updA s i
      (fun a => { a with data := toLE8 (readU64LE a0.data - 1) })) i
      = { a0 with data := toLE8 (readU64LE a0.data - 1) } := by
    rw [peek_updA_self _ (some_peek_lt ha), peek_of_some ha]
  simp only [close_child, ha, hku]
  rw [if_neg hlam, if_neg (by simp), if_neg (by simp [hlen]),
    if_neg (by simp [hkey]), if_neg hcnt, if_neg hki, hamt, if_pos trivial]
  rfl

/-- C5 counterexample: the aliased call is not rejected by any address
comparison before mutation: it fails with AccountBorrowFailed and the
memory state at exit differs from the state before the call. -/
theorem C5_counterexample :
    errOf (close_child aliasStore 0 0 1) = some .AccountBorrowFailed ∧
    stateOf (close_child aliasStore 0 0 1) ≠ some aliasStore ∧
    traceOf (close_child aliasStore 0 0 1) ≠ [] :=
  ⟨by decide, by decide, by decide⟩

/-- C5 witness: the amended description instantiated on the aliased
store. -/
theorem C5_witness :
    close_child aliasStore 0 0 1 = .err .AccountBorrowFailed
      (updA (updA (updA aliasStore 0
        (fun a => { a with data := toLE8 (readU64LE aliasAcc.data - 1) })) 1
        (fun a => { a with lamports := (a.lamports + aliasAcc.lamports) % 2 ^ 64 })) 0
        (fun a => { a with owner := systemId }))
      [.setCount 0 (readU64LE aliasAcc.data - 1), .addValue 1 aliasAcc.lamports,
       .setOwner 0 systemId] :=
  C5_no_aliasing_check aliasStore 0 1 aliasAcc (by decide) (by decide) (by decide)
    (by decide) (by decide) (by decide) (by decide)

/-- C6: every record is claimed to be reinterpreted only after its region
length was checked against the exact expected size.  Amended: only the
parent record inside close_child is length-checked (exactly 8 bytes,
InvalidAccountData on mismatch, before its mutable reinterpretation);
the child record in close_child and the parent record in close_parent
are read through unchecked views with no length validation at all, and
close_parent reclaims a record of any data length. -/
theorem C6_layout_validation :
    (∀ s i j k c0 p0 u0, s[i]? = some c0 → s[j]? = some p0 → s[k]? = some u0 →
      p0.lamports ≠ 0 → p0.owner = c0.owner → p0.data.length ≠ 8 →
      close_child s i j k = .err .InvalidAccountData s []) ∧
    (∀ s i j p0, s[i]? = some p0 → j < s.length → p0.owner = programId →
      readU64LE p0.data = 0 → i ≠ j → p0.data.length ≠ 8 →
      isOk (close_parent s i j) = true) := by
  constructor
  · intro s i j k c0 p0 u0 hc hp hu hlam hown hlen
    simp only [close_child, hc, hp, hu]
    rw [if_neg hlam, if_neg (by simp [hown]), if_pos hlen]
  · intro s i j p0 hp hj hown h0 hij hlen
    have hju : s[j]? = some s[j] := List.getElem?_eq_getElem hj
    simp only [close_parent, hp, hju]
    rw [if_neg (by simp [hown]), if_neg (by simp [h0]),
      if_neg (fun hh => hij hh.symm)]
    rfl

/-- C6 counterexample: close_parent succeeds on a record whose data
length is 40, not the expected 8 — no InvalidLayout rejection exists on
that path. -/
theorem C6_counterexample :
    (peek longParentStore 0).data.length ≠ 8 ∧
    isOk (close_parent longParentStore 0 1) = true :=
  ⟨by decide, by decide⟩

/-- C6 witness: the one real length check (parent inside close_child)
fires, and the unchecked close_parent path succeeds. -/
theorem C6_witness :
    close_child childLongStore 0 1 2 = .err .InvalidAccountData childLongStore [] ∧
    isOk (close_parent longParentStore 0 1) = true :=
  ⟨C6_layout_validation.1 childLongStore 0 1 2 childAcc longParent userAcc
      (by decide) (by decide) (by decide) (by decide) (by decide) (by decide),
   C6_layout_validation.2 longParentStore 0 1 longParent (by decide) (by decide)
      (by decide) (by decide) (by decide) (by decide)⟩

/-- C8: every failing call is claimed to leave all records exactly as
before, all checks ordered before any mutation.  Amended: this holds for
every close_parent error, and for close_child errors whenever the user
role does not alias the child and the child does not alias the parent;
an aliased close_child can fail on a borrow conflict after the count
write, the value transfer and the custody reassignment, and only the
host transaction rollback discards those writes. -/
theorem C8_failure_atomicity :
    (∀ s i j e s1 tr, close_parent s i j = .err e s1 tr → s1 = s) ∧
    (∀ s i j k e s1 tr, k ≠ i → i ≠ j →
      close_child s i j k = .err e s1 tr → s1 = s) :=
  ⟨fun s i j e s1 tr h => (close_parent_err_state h).1,
   fun s i j k e s1 tr hki hij h => close_child_err_state hki hij h⟩

/-- C8 counterexample: passing the child account again as the user makes
close_child fail with AccountBorrowFailed after the parent count was
already decremented: the exit state differs from the state before the
call, refuting checks-before-mutation as stated. -/
theorem C8_counterexample :
    errOf (close_child c8Store 0 1 0) = some .AccountBorrowFailed ∧
    stateOf (close_child c8Store 0 1 0) ≠ some c8Store :=
  ⟨by decide, by decide⟩

/-- C8 witness: a failing close_parent leaves the store unchanged. -/
theorem C8_witness :
    ∃ s1, close_parent busyParentStore 0 1 = .err .InvalidAccountData s1 [] ∧
      s1 = busyParentStore :=
  ⟨busyParentStore, by decide,
   C8_failure_atomicity.1 busyParentStore 0 1 .InvalidAccountData busyParentStore []
     (by decide)⟩

/-- C9: the first byte of the instruction payload selects the operation:
0 dispatches to close_child, 1 to close_parent, anything else (and the
empty payload) is rejected with the UnknownOperation error (ProgramError
InvalidInstructionData in the code) with no record touched and no write
performed. -/
theorem C9_dispatch (s : List Account) (metas : List Nat) :
    process_instruction s metas [] = .err .InvalidInstructionData s [] ∧
    (∀ rest i j k, metas[0]? = some i → metas[1]? = some j → metas[2]? = some k →
      process_instruction s metas (0 :: rest) = close_child s i j k) ∧
    (∀ rest i j, metas[0]? = some i → metas[1]? = some j →
      process_instruction s metas (1 :: rest) = close_parent s i j) ∧
    (∀ b rest, b ≠ 0 → b ≠ 1 →
      process_instruction s metas (b :: rest) = .err .InvalidInstructionData s []) := by
  refine ⟨rfl, ?_, ?_, ?_⟩
  · intro rest i j k h0 h1 h2
    simp [process_instruction, h0, h1, h2]
  · intro rest i j h0 h1
    simp [process_instruction, h0, h1]
  · intro b rest hb0 hb1
    simp [process_instruction, hb0, hb1]

/-- C9 witness: dispatch on the scenario store: selector 5 is rejected
without touching the store. -/
theorem C9_witness :
    process_instruction goodStore [0, 1, 2] [5] = .err .InvalidInstructionData goodStore [] :=
  (C9_dispatch goodStore [0, 1, 2]).2.2.2 5 [] (by decide) (by decide)

/-- C10: close_parent reads and writes only the parent (accounts[0]) and
the beneficiary (accounts[1]): every other index is unchanged by any
outcome, and the outcome kind is fully determined by the contents of
those two positions — it never reads a child record. -/
theorem C10_close_parent_frame :
    (∀ s i j s1 tr, close_parent s i j = .ok s1 tr →
      ∀ m, m ≠ i → m ≠ j → s1[m]? = s[m]?) ∧
    (∀ s i j e s1 tr, close_parent s i j = .err e s1 tr →
      ∀ m : Nat, s1[m]? = s[m]?) ∧
    (∀ s t i j, s[i]? = t[i]? → s[j]? = t[j]? →
      resKind (close_parent s i j) = resKind (close_parent t i j)) := by
  refine ⟨?_, ?_, ?_⟩
  · intro s i j s1 tr hok m hmi hmj
    obtain ⟨p0, u0, hp, hu, hown, hcnt0, hji, hs1, htr⟩ := close_parent_ok_elim hok
    subst hs1
    rw [getElem?_updA_ne _ (fun hh => hmi hh.symm),
      getElem?_updA_ne _ (fun hh => hmi hh.symm),
      getElem?_updA_ne _ (fun hh => hmi hh.symm),
      getElem?_updA_ne _ (fun hh => hmj hh.symm)]
  · intro s i j e s1 tr herr m
    obtain ⟨rfl, -⟩ := close_parent_err_state herr
    rfl
  · intro s t i j hsi hsj
    simp only [close_parent]
    rw [hsi, hsj]
    rcases t[i]? with _ | p0 <;> rcases t[j]? with _ | u0
    · rfl
    · rfl
    · rfl
    · simp only [resKind]
      split_ifs <;> rfl

/-- C10 witness: frame and determination on the count-0 parent store. -/
theorem C10_witness :
    ∃ s1 tr, close_parent restedParentStore 0 1 = .ok s1 tr ∧
      s1[2]? = restedParentStore[2]? :=
  ⟨observed restedParentStore (close_parent restedParentStore 0 1),
   traceOf (close_parent restedParentStore 0 1), by decide,
   C10_close_parent_frame.1 restedParentStore 0 1
     (observed restedParentStore (close_parent restedParentStore 0 1))
     (traceOf (close_parent restedParentStore 0 1)) (by decide) 2
     (by decide) (by decide)⟩

/-- C7: on every successful close, the destroyed record ends with empty
data, zero attached value and the neutral (system) custody tag, and the
beneficiary gains the record's former value.  Amended: the gain is u64
addition, i.e. modulo 2 ^ 64 (exact only while the sum stays below
2 ^ 64), and no sentinel overwrite of the record content is performed —
the write trace of the secure variant never contains a fill effect; the
content is discarded by the shrink to zero length instead. -/
theorem C7_reclamation_protocol :
    (∀ s i j k s1 tr, close_child s i j k = .ok s1 tr →
      (peek s1 i).data = [] ∧ (peek s1 i).lamports = 0 ∧
      (peek s1 i).owner = systemId ∧
      (peek s1 k).lamports = ((peek s k).lamports + (peek s i).lamports) % 2 ^ 64 ∧
      tr.all (fun e => ! e.isFill) = true) ∧
    (∀ s i j s1 tr, close_parent s i j = .ok s1 tr →
      (peek s1 i).data = [] ∧ (peek s1 i).lamports = 0 ∧
      (peek s1 i).owner = systemId ∧
      (peek s1 j).lamports = ((peek s j).lamports + (peek s i).lamports) % 2 ^ 64 ∧
      tr.all (fun e => ! e.isFill) = true) := by
  constructor
  · intro s i j k s1 tr hok
    obtain ⟨c0, p0, u0, hc, hp, hu, hlam, hown, hplen, hcp, hcnt, hki, hij, hs1, htr⟩ :=
      close_child_ok_elim hok
    have hi : i < s.length := some_peek_lt hc
    have hj : j < s.length := some_peek_lt hp
    have hk : k < s.length := some_peek_lt hu
    have hpi : peek s i = c0 := peek_of_some hc
    have hpj : peek s j = p0 := peek_of_some hp
    have hpk : peek s k = u0 := peek_of_some hu
    have hji : j ≠ i := fun hh => hij hh.symm
    subst hs1
    subst htr
    set t1 := updA s j
        (fun a => { a with data := toLE8 (readU64LE p0.data - 1) }) with ht1
    set t2 := updA t1 k
        (fun a => { a with lamports := (a.lamports + c0.lamports) % 2 ^ 64 }) with ht2
    set t3 := updA t2 i (fun a => { a with owner := systemId }) with ht3
    set t4 := updA t3 i (fun a => { a with data := [] }) with ht4
    set t5 := updA t4 i (fun a => { a with lamports := 0 }) with ht5
    have hl1 : t1.length = s.length := by rw [ht1, length_updA]
    have hl2 : t2.length = s.length := by rw [ht2, length_updA, hl1]
    have hl3 : t3.length = s.length := by rw [ht3, length_updA, hl2]
    have hl4 : t4.length = s.length := by rw [ht4, length_updA, hl3]
    have hp1i : peek t1 i = c0 := by rw [ht1, peek_updA_ne _ hji, hpi]
    have hp2i : peek t2 i = c0 := by rw [ht2, peek_updA_ne _ hki, hp1i]
    have hp5i : peek t5 i = { c0 with owner := systemId, data := [], lamports := 0 } := by
      rw [ht5, peek_updA_self _ (by omega : i < t4.length),
        ht4, peek_updA_self _ (by omega : i < t3.length),
        ht3, peek_updA_self _ (by omega : i < t2.length), hp2i]
    have hik : i ≠ k := fun hh => hki hh.symm
    have hp5k : (peek t5 k).lamports =
        ((peek s k).lamports + (peek s i).lamports) % 2 ^ 64 := by
      rw [hpi, hpk, ht5, peek_updA_ne _ hik, ht4, peek_updA_ne _ hik,
        ht3, peek_updA_ne _ hik, ht2, peek_updA_self _ (by omega : k < t1.length)]
      by_cases hkj : k = j
      · subst hkj
        rw [ht1, peek_updA_self _ (by omega : k < s.length), hpk]
      · rw [ht1, peek_updA_ne _ (fun hh => hkj hh.symm), hpk]
    refine ⟨?_, ?_, ?_, hp5k, ?_⟩
    · rw [hp5i]
    · rw [hp5i]
    · rw [hp5i]
    · rfl
  · intro s i j s1 tr hok
    obtain ⟨p0, u0, hp, hu, hown, hcnt0, hji, hs1, htr⟩ := close_parent_ok_elim hok
    have hi : i < s.length := some_peek_lt hp
    have hj : j < s.length := some_peek_lt hu
    have hpi : peek s i = p0 := peek_of_some hp
    have hij : i ≠ j := fun hh => hji hh.symm
    subst hs1
    subst htr
    set t1 := updA s j
        (fun a => { a with lamports := (a.lamports + p0.lamports) % 2 ^ 64 }) with ht1
    set t2 := updA t1 i (fun a => { a with owner := systemId }) with ht2
    set t3 := updA t2 i (fun a => { a with data := [] }) with ht3
    set t4 := updA t3 i (fun a => { a with lamports := 0 }) with ht4
    have hl1 : t1.length = s.length := by rw [ht1, length_updA]
    have hl2 : t2.length = s.length := by rw [ht2, length_updA, hl1]
    have hl3 : t3.length = s.length := by rw [ht3, length_updA, hl2]
    have hp1i : peek t1 i = p0 := by rw [ht1, peek_updA_ne _ hji, hpi]
    have hp4i : peek t4 i = { p0 with owner := systemId, data := [], lamports := 0 } := by
      rw [ht4, peek_updA_self _ (by omega : i < t3.length),
        ht3, peek_updA_self _ (by omega : i < t2.length),
        ht2, peek_updA_self _ (by omega : i < t1.length), hp1i]
    have hp4j : (peek t4 j).lamports =
        ((peek s j).lamports + (peek s i).lamports) % 2 ^ 64 := by
      rw [hpi, ht4, peek_updA_ne _ hij, ht3, peek_updA_ne _ hij,
        ht2, peek_updA_ne _ hij, ht1, peek_updA_self _ hj]
    refine ⟨?_, ?_, ?_, hp4j, ?_⟩
    · rw [hp4i]
    · rw [hp4i]
    · rw [hp4i]
    · rfl

/-- C7 counterexample: a successful close_child whose write trace
contains no sentinel fill of the record content, and on which the
beneficiary does not increase by exactly the record's former value: the
u64 addition wraps, leaving 2 instead of 2 ^ 64 + 2. -/
theorem C7_counterexample :
    isOk (close_child overflowStore 0 1 2) = true ∧
    (traceOf (close_child overflowStore 0 1 2)).all (fun e => ! e.isFill) = true ∧
    (peek overflowStore 2).lamports = 2 ^ 64 - 1 ∧
    (peek overflowStore 0).lamports = 3 ∧
    (peek (observed overflowStore (close_child overflowStore 0 1 2)) 2).lamports = 2 :=
  ⟨by decide, by decide, by decide, by decide, by decide⟩

set_option maxHeartbeats 2000000 in
/-- C7 witness: the amended reclamation facts on the scenario run. -/
theorem C7_witness :
    (peek (observed goodStore (close_child goodStore 0 1 2)) 0).lamports = 0 :=
  (C7_reclamation_protocol.1 goodStore 0 1 2
    (observed goodStore (close_child goodStore 0 1 2))
    (traceOf (close_child goodStore 0 1 2)) (by decide)).2.1

end DanglingPointer
